import Mathlib

/-!
# Verification of the Sia wallet transaction-building core

Shallow embedding of `sia/wallet/wallet.go` (the `Wallet` aggregate, `New`,
`WalletInfo`, `SpendCoins`) together with the builder primitives it calls
(`RegisterTransaction`, `FundTransaction`, `AddMinerFee`, `AddOutput`,
`SignTransaction`, plus `AbortTransaction`, `resetGeneration`, `Balance` and
`Load`), and of the `/consensus` API handler from `api/consensus.go`.

The builder primitives, `Balance` and `Load` are not present in the source
excerpt (only their callers are); those definitions are modelled from the
specification and carry a doc comment saying so.  Machine integers are
modelled as `Nat` (currency amounts only ever grow by addition here, and the
counters are small monotone integers), maps as association lists, and
`error` returns as `Option WalletError` values in Go's result-tuple style:
an operation returns its new wallet state together with `none` on success or
`some e` on failure, and every primitive that fails returns its input state
unchanged.
-/

namespace Sia

/-- `consensus.Currency`. -/
abbrev Currency := Nat

/-- `consensus.CoinAddress` (an opaque hash; modelled as `Nat`). -/
abbrev CoinAddress := Nat

/-- `consensus.OutputID` (an opaque hash; modelled as `Nat`). -/
abbrev OutputID := Nat

/-- `consensus.BlockHeight`. -/
abbrev BlockHeight := Nat

/-- `consensus.Output`: a ledger-visible unit of value. -/
structure Output where
  value : Currency
  spendHash : CoinAddress
deriving DecidableEq, Repr

/-- `consensus.Transaction`, restricted to the fields the wallet core builds:
inputs (each referencing a reserved output; the placeholder signature carries
no information and is omitted), miner fees, and outputs. -/
structure Transaction where
  inputs : List OutputID
  minerFees : List Currency
  outputs : List Output
deriving DecidableEq, Repr

/-- The Go zero value of `consensus.Transaction`. -/
def emptyTransaction : Transaction :=
  { inputs := [], minerFees := [], outputs := [] }

/-- Modelled from the spec: a known output held by a `SpendableAddress`,
"each tagged with a spent-generation marker" (`spentCounter`). -/
structure spendableOutput where
  spentCounter : Nat
  id : OutputID
  output : Output
deriving DecidableEq, Repr

/-- Modelled from the spec: a `SpendableAddress`.  `unlockHeight = some h`
marks a `TimelockedAddress` whose funds cannot be selected until the ledger
height reaches `h`.  Key material is irrelevant to the claims (the signer of
the primary flow is single-key and total) and is omitted. -/
structure spendableAddress where
  address : CoinAddress
  unlockHeight : Option BlockHeight
  spendableOutputs : List spendableOutput
deriving DecidableEq, Repr

/-- The builder state machine's live states.  `Signed` and `Aborted` are
terminal: the entry is removed from the registry, so only `Empty` and
`Funded` occur on live entries. -/
inductive TxnState where
  | Empty
  | Funded
deriving DecidableEq, Repr

/-- An `openTransaction`: the accumulating draft plus the outputs reserved to
fund it, and the builder state. -/
structure openTransaction where
  transaction : Transaction
  reservedOutputs : List OutputID
  txState : TxnState
deriving DecidableEq, Repr

/-- The spec's error taxonomy (§7). -/
inductive WalletError where
  | InsufficientFunds
  | UnknownTransaction
  | InvalidTransactionState
  | SignatureConditionMismatch
  | LedgerRejected
  | PersistenceFailure
deriving DecidableEq, Repr

/-- The `Wallet` aggregate of `wallet.go` (data fields; the consensus
collaborator is passed to the operations that consult it). -/
structure Wallet where
  prevHeight : BlockHeight
  spentCounter : Nat
  spendableAddresses : List spendableAddress
  transactionCounter : Nat
  transactions : List (Nat × openTransaction)
deriving DecidableEq, Repr

/-- Association-list lookup in the open-transaction registry. -/
def lookupList (txs : List (Nat × openTransaction)) (id : Nat) : Option openTransaction :=
  match txs with
  | [] => none
  | e :: rest => if e.1 = id then some e.2 else lookupList rest id

/-- Look up an open transaction by id. -/
def lookupTransaction (w : Wallet) (id : Nat) : Option openTransaction :=
  lookupList w.transactions id

/-- Replace the registry entry keyed `id` by `ot`. -/
def updateList (txs : List (Nat × openTransaction)) (id : Nat) (ot : openTransaction) :
    List (Nat × openTransaction) :=
  txs.map (fun e => if e.1 = id then (id, ot) else e)

/-- Remove the registry entry keyed `id`. -/
def removeList (txs : List (Nat × openTransaction)) (id : Nat) :
    List (Nat × openTransaction) :=
  txs.filter (fun e => decide (e.1 ≠ id))

/-- Whether a (possibly time-locked) address may be spent at `height`. -/
def addressUnlocked (sa : spendableAddress) (height : BlockHeight) : Bool :=
  match sa.unlockHeight with
  | none => true
  | some h => decide (h ≤ height)

/-- Modelled from the spec: `unspentOutputs(currentHeight)` (§4.1) — the
outputs whose stored generation is strictly below the wallet's current
generation, drawn from addresses that are not (still) time-locked, in the
deterministic iteration order of the address book. -/
def unspentOutputsList (w : Wallet) : List spendableOutput :=
  (w.spendableAddresses.filter (fun sa => addressUnlocked sa w.prevHeight)).flatMap
    (fun sa => sa.spendableOutputs.filter (fun o => decide (o.spentCounter < w.spentCounter)))

/-- Modelled from the spec: the greedy selection of §4.2 — consume unspent
outputs in iteration order until the accumulated value meets or exceeds
`amount` (a shortfall shows as the result's total being below `amount`). -/
def selectPrefix (amount : Currency) : List spendableOutput → List spendableOutput
  | [] => []
  | o :: rest => if amount = 0 then [] else o :: selectPrefix (amount - o.output.value) rest

/-- Total value of a list of spendable outputs. -/
def outputsTotal (l : List spendableOutput) : Currency :=
  (l.map (fun o => o.output.value)).sum

/-- The output ids of the greedy selection for `amount` against `w`. -/
def selectedIds (w : Wallet) (amount : Currency) : List OutputID :=
  (selectPrefix amount (unspentOutputsList w)).map (fun o => o.id)

/-- Modelled from the spec: `markProvisionallySpent` (§4.1) applied to each
listed output id — set the output's generation to the wallet's current
generation. -/
def markOutputsSpent (w : Wallet) (ids : List OutputID) : Wallet :=
  { w with spendableAddresses := w.spendableAddresses.map (fun sa =>
      { sa with spendableOutputs := sa.spendableOutputs.map (fun o =>
          if o.id ∈ ids then { o with spentCounter := w.spentCounter } else o) }) }

/-- Modelled from the spec: clearing the generation markings of the listed
outputs on `abort` (§4.3: "their generation markings are cleared"). -/
def clearSpentMarks (w : Wallet) (ids : List OutputID) : Wallet :=
  { w with spendableAddresses := w.spendableAddresses.map (fun sa =>
      { sa with spendableOutputs := sa.spendableOutputs.map (fun o =>
          if o.id ∈ ids then { o with spentCounter := 0 } else o) }) }

/-- Modelled from the spec: on `sign(id, finalize := true)` the reservations
become permanent — the outputs have left the spendable set for good
(§8 property 6: after finalize the funding output is "no longer in the
confirmed-unspent set"). -/
def removeOutputs (w : Wallet) (ids : List OutputID) : Wallet :=
  { w with spendableAddresses := w.spendableAddresses.map (fun sa =>
      { sa with spendableOutputs := sa.spendableOutputs.filter (fun o => decide (o.id ∉ ids)) }) }

/-- Modelled from the spec: `register() -> id` (§4.3) — allocate a fresh id
from the monotonically increasing `transactionCounter`, store a new `Empty`
open transaction under it.  Registration cannot fail; the error slot mirrors
the Go signature checked by `SpendCoins`. -/
def RegisterTransaction (w : Wallet) (t : Transaction) :
    Nat × Wallet × Option WalletError :=
  let id := w.transactionCounter
  (id,
   { w with
      transactionCounter := w.transactionCounter + 1,
      transactions := w.transactions ++
        [(id, { transaction := t, reservedOutputs := [], txState := .Empty })] },
   none)

/-- Modelled from the spec: `fund(id, amount)` (§4.3, §4.2) — select unspent
outputs greedily, mark each provisionally spent, append the corresponding
inputs to the draft and the output ids to the reservation set, and move to
`Funded`; on `InsufficientFunds` every provisional mark made during the call
is rolled back, which in this sequential model is the same as leaving the
wallet untouched. -/
def FundTransaction (w : Wallet) (id : Nat) (amount : Currency) :
    Wallet × Option WalletError :=
  match lookupTransaction w id with
  | none => (w, some .UnknownTransaction)
  | some ot =>
    let sel := selectPrefix amount (unspentOutputsList w)
    if outputsTotal sel < amount then
      (w, some .InsufficientFunds)
    else
      let selIds := sel.map (fun o => o.id)
      let w1 := markOutputsSpent w selIds
      let ot1 := { ot with
        transaction := { ot.transaction with inputs := ot.transaction.inputs ++ selIds },
        reservedOutputs := ot.reservedOutputs ++ selIds,
        txState := .Funded }
      ({ w1 with transactions := updateList w1.transactions id ot1 }, none)

/-- Modelled from the spec: `addMinerFee(id, amount)` (§4.3) — requires state
`Funded`; appends a fee commitment to the draft. -/
def AddMinerFee (w : Wallet) (id : Nat) (fee : Currency) :
    Wallet × Option WalletError :=
  match lookupTransaction w id with
  | none => (w, some .UnknownTransaction)
  | some ot =>
    match ot.txState with
    | .Empty => (w, some .InvalidTransactionState)
    | .Funded =>
      let ot1 := { ot with
        transaction := { ot.transaction with minerFees := ot.transaction.minerFees ++ [fee] } }
      ({ w with transactions := updateList w.transactions id ot1 }, none)

/-- Modelled from the spec: `addOutput(id, output)` (§4.3) — requires state
`Funded`; appends an output to the draft, with no balancing check. -/
def AddOutput (w : Wallet) (id : Nat) (o : Output) :
    Wallet × Option WalletError :=
  match lookupTransaction w id with
  | none => (w, some .UnknownTransaction)
  | some ot =>
    match ot.txState with
    | .Empty => (w, some .InvalidTransactionState)
    | .Funded =>
      let ot1 := { ot with
        transaction := { ot.transaction with outputs := ot.transaction.outputs ++ [o] } }
      ({ w with transactions := updateList w.transactions id ot1 }, none)

/-- Modelled from the spec: `sign(id, finalize)` (§4.3) — requires state
`Funded`; the single-key signer of the primary flow always succeeds.  With
`finalize := true` the open transaction is removed from the registry and its
reserved outputs become permanently spent; with `finalize := false` the
draft stays registered and its reservations stay held. -/
def SignTransaction (w : Wallet) (id : Nat) (finalize : Bool) :
    Transaction × Wallet × Option WalletError :=
  match lookupTransaction w id with
  | none => (emptyTransaction, w, some .UnknownTransaction)
  | some ot =>
    match ot.txState with
    | .Empty => (emptyTransaction, w, some .InvalidTransactionState)
    | .Funded =>
      if finalize then
        let w1 := removeOutputs w ot.reservedOutputs
        (ot.transaction, { w1 with transactions := removeList w1.transactions id }, none)
      else
        (ot.transaction, w, none)

/-- Modelled from the spec: `abort(id)` (§4.3) — releases all reserved
outputs back to the address book (their generation markings are cleared) and
removes the open transaction. -/
def AbortTransaction (w : Wallet) (id : Nat) : Wallet × Option WalletError :=
  match lookupTransaction w id with
  | none => (w, some .UnknownTransaction)
  | some ot =>
    let w1 := clearSpentMarks w ot.reservedOutputs
    ({ w1 with transactions := removeList w1.transactions id }, none)

/-- Modelled from the spec: `resetGeneration()` (§4.1) — increment the
wallet-wide generation counter, invalidating all provisional markings in
O(1) without touching any per-output state. -/
def resetGeneration (w : Wallet) : Wallet :=
  { w with spentCounter := w.spentCounter + 1 }

/-- Modelled from the spec and the source comment ("The balance reported
ignores outputs you've already spent even if they haven't made it into the
blockchain yet"): `Balance(full)` sums the known outputs; the non-full
(confirmed) balance skips outputs marked spent at the current generation. -/
def Balance (w : Wallet) (full : Bool) : Currency :=
  ((w.spendableAddresses.flatMap (fun sa => sa.spendableOutputs)).filter
    (fun o => full || decide (o.spentCounter < w.spentCounter))
   |>.map (fun o => o.output.value)).sum

/-- `components.WalletInfo`, as assembled by `Wallet.WalletInfo` in the
source. -/
structure WalletInfo where
  balance : Currency
  fullBalance : Currency
  numAddresses : Nat
deriving DecidableEq, Repr

/-- `Wallet.WalletInfo` from the source. -/
def walletInfoOf (w : Wallet) : WalletInfo :=
  { balance := Balance w false
    fullBalance := Balance w true
    numAddresses := w.spendableAddresses.length }

/-- `SpendCoins` from the source, verbatim structure: build a transaction
paying `amount` to `dest` with a hardcoded miner fee of 10 by driving the
builder primitives with early returns, then submit it to the consensus
collaborator (`accept`, standing for `w.state.AcceptTransaction`).  Returns
the Go result tuple `(t, err)` together with the wallet state left behind. -/
def SpendCoins (accept : Transaction → Option WalletError) (w : Wallet)
    (amount : Currency) (dest : CoinAddress) :
    Transaction × Wallet × Option WalletError :=
  let minerFee : Currency := 10
  let output : Output := { value := amount, spendHash := dest }
  match RegisterTransaction w emptyTransaction with
  | (id, w1, err) =>
    match err with
    | some e => (emptyTransaction, w1, some e)
    | none =>
      match FundTransaction w1 id (amount + minerFee) with
      | (w2, some e) => (emptyTransaction, w2, some e)
      | (w2, none) =>
        match AddMinerFee w2 id minerFee with
        | (w3, some e) => (emptyTransaction, w3, some e)
        | (w3, none) =>
          match AddOutput w3 id output with
          | (w4, some e) => (emptyTransaction, w4, some e)
          | (w4, none) =>
            match SignTransaction w4 id true with
            | (t, w5, some e) => (t, w5, some e)
            | (t, w5, none) => (t, w5, accept t)

/-- Modelled from the spec: `SendCoins` as §6 describes it — "composes
register→fund→addMinerFee→addOutput→sign(finalize=true)→submit-to-ledger as
one convenience call; equivalent to a caller driving §4.3's primitives
manually".  Written as that manual caller: each primitive invoked in turn on
the wallet state the previous one returned, stopping at the first error. -/
def sendCoinsManual (accept : Transaction → Option WalletError) (w : Wallet)
    (amount : Currency) (dest : CoinAddress) :
    Transaction × Wallet × Option WalletError :=
  let step1 := RegisterTransaction w emptyTransaction
  let id := step1.1
  match step1.2.2 with
  | some e => (emptyTransaction, step1.2.1, some e)
  | none =>
    let step2 := FundTransaction step1.2.1 id (amount + 10)
    match step2.2 with
    | some e => (emptyTransaction, step2.1, some e)
    | none =>
      let step3 := AddMinerFee step2.1 id 10
      match step3.2 with
      | some e => (emptyTransaction, step3.1, some e)
      | none =>
        let step4 := AddOutput step3.1 id { value := amount, spendHash := dest }
        match step4.2 with
        | some e => (emptyTransaction, step4.1, some e)
        | none =>
          let step5 := SignTransaction step4.1 id true
          match step5.2.2 with
          | some e => (step5.1, step5.2.1, some e)
          | none => (step5.1, step5.2.1, accept step5.1)

/-- One public builder-protocol step on the wallet, as the spec's §4.3/§4.1
operations.  `applyAction` keeps the state an operation returns; a failing
operation returns its input state, so failed steps leave the wallet as it
was. -/
inductive WalletAction where
  | register (t : Transaction)
  | fund (id : Nat) (amount : Currency)
  | addOutput (id : Nat) (o : Output)
  | addMinerFee (id : Nat) (fee : Currency)
  | sign (id : Nat) (finalize : Bool)
  | abort (id : Nat)
  | reset
deriving DecidableEq, Repr

/-- The wallet state after one step. -/
def applyAction (w : Wallet) (a : WalletAction) : Wallet :=
  match a with
  | .register t => (RegisterTransaction w t).2.1
  | .fund id amount => (FundTransaction w id amount).1
  | .addOutput id o => (AddOutput w id o).1
  | .addMinerFee id fee => (AddMinerFee w id fee).1
  | .sign id finalize => (SignTransaction w id finalize).2.1
  | .abort id => (AbortTransaction w id).1
  | .reset => resetGeneration w

/-- The wallet state after a sequence of steps. -/
def runActions (w : Wallet) (acts : List WalletAction) : Wallet :=
  acts.foldl applyAction w

/-- Whether a step is one of the six builder-protocol steps of claim C1
(everything except `resetGeneration`). -/
def builderStep : WalletAction → Bool
  | .reset => false
  | _ => true

/-- The ids handed out by the `register` steps of a run, in order. -/
def registeredIds (w : Wallet) : List WalletAction → List Nat
  | [] => []
  | a :: rest =>
    match a with
    | .register _ => w.transactionCounter :: registeredIds (applyAction w a) rest
    | _ => registeredIds (applyAction w a) rest

/-- An output is tentatively spent iff its stored generation equals the
wallet's current generation (source comment, spec §3). -/
def tentativelySpent (w : Wallet) (o : spendableOutput) : Prop :=
  o.spentCounter = w.spentCounter

instance (w : Wallet) (o : spendableOutput) : Decidable (tentativelySpent w o) :=
  inferInstanceAs (Decidable (_ = _))

/-- Every stored generation is bounded by the wallet's generation counter
(the invariant of spec §3). -/
def GensBounded (w : Wallet) : Prop :=
  ∀ sa ∈ w.spendableAddresses, ∀ o ∈ sa.spendableOutputs,
    o.spentCounter ≤ w.spentCounter

instance (w : Wallet) : Decidable (GensBounded w) :=
  inferInstanceAs (Decidable (∀ sa ∈ w.spendableAddresses,
    ∀ o ∈ sa.spendableOutputs, o.spentCounter ≤ w.spentCounter))

/-- The persisted record of one spendable address (spec §6: spend condition,
key material, known output set; per-output generations are not persisted). -/
structure savedAddress where
  address : CoinAddress
  unlockHeight : Option BlockHeight
  outputs : List (OutputID × Output)
deriving DecidableEq, Repr

/-- The persisted wallet state (spec §6: the per-address records "plus the
wallet-wide id/generation counters"). -/
structure WalletFile where
  savedAddresses : List savedAddress
  savedSpentCounter : Nat
  savedTransactionCounter : Nat
deriving DecidableEq, Repr

/-- Modelled from the spec: `Load` (§4.6, §6) — absent from the excerpt.
Reconstructs the address book and the wallet-wide counters from the file;
open transactions are not persisted, and per-output generations are not part
of the per-address durable record, so every loaded output carries the
default generation 0 ("reservations revert to unspent").  `none` stands for
a missing file (a fresh wallet): nothing to load. -/
def Load (w : Wallet) (file : Option WalletFile) : Wallet :=
  match file with
  | none => w
  | some f =>
    { w with
      spendableAddresses := f.savedAddresses.map (fun sa =>
        { address := sa.address
          unlockHeight := sa.unlockHeight
          spendableOutputs := sa.outputs.map (fun p =>
            { spentCounter := 0, id := p.1, output := p.2 }) })
      spentCounter := f.savedSpentCounter
      transactionCounter := f.savedTransactionCounter }

/-- `New` from the source: construct the wallet with `spentCounter := 1` and
empty maps (the remaining fields take Go zero values), then `Load` the save
file. -/
def New (file : Option WalletFile) : Wallet :=
  Load
    { prevHeight := 0
      spentCounter := 1
      spendableAddresses := []
      transactionCounter := 0
      transactions := [] }
    file

/-- `types.Block`, reduced to its identifier. -/
structure Block where
  idVal : Nat
deriving DecidableEq, Repr

/-- `Block.ID()`. -/
def Block.ID (b : Block) : Nat := b.idVal

/-- The consensus-set view the `/consensus` handler consults:
`ChildTarget(blockID)` returns the target together with an existence flag. -/
structure ConsensusSetView where
  childTargetOf : Nat → Nat × Bool

/-- The server state the `/consensus` handler reads. -/
structure Server where
  cs : ConsensusSetView
  currentBlock : Block
  blockchainHeight : Nat

/-- The `ConsensusGET` response body from `api/consensus.go`. -/
structure ConsensusGET where
  height : BlockHeight
  currentBlock : Nat
  target : Nat
deriving DecidableEq, Repr

/-- What a handler run does to the response writer: either it panics (the
`build.DEBUG` branch) or it writes a list of JSON responses. -/
inductive HandlerOutcome where
  | panicked (msg : String)
  | wrote (responses : List ConsensusGET)
  | wroteError (msg : String)
deriving DecidableEq, Repr

/-- `consensusHandlerGET` from the source: query `ChildTarget` for the
current block; under `build.DEBUG`, panic if the block does not exist;
otherwise write exactly one `ConsensusGET` response. -/
def consensusHandlerGET (debug : Bool) (srv : Server) : HandlerOutcome :=
  let p := srv.cs.childTargetOf srv.currentBlock.ID
  if debug ∧ p.2 = false then
    .panicked "server has nonexistent current block"
  else
    .wrote [{ height := srv.blockchainHeight
              currentBlock := srv.currentBlock.ID
              target := p.1 }]

/-- `consensusHandler` from the source: dispatch on the request method. -/
def consensusHandler (debug : Bool) (srv : Server) (method : String) : HandlerOutcome :=
  if method = "" ∨ method = "GET" then
    consensusHandlerGET debug srv
  else
    .wroteError "unrecognized method when calling /consensus"

/-- A concrete single-output wallet for the witnesses: one unlocked address
owning one confirmed output of value 100, no open transactions. -/
def exWallet : Wallet :=
  { prevHeight := 0
    spentCounter := 1
    spendableAddresses :=
      [{ address := 1
         unlockHeight := none
         spendableOutputs := [{ spentCounter := 0, id := 7, output := { value := 100, spendHash := 1 } }] }]
    transactionCounter := 0
    transactions := [] }

/-- A concrete wallet with no outputs at all, for the funding-failure
scenarios. -/
def emptyWallet : Wallet :=
  { prevHeight := 0
    spentCounter := 1
    spendableAddresses := []
    transactionCounter := 0
    transactions := [] }

/-- A concrete two-output wallet (values 100 and 50) for the concurrent-
funding witnesses. -/
def exWallet2 : Wallet :=
  { prevHeight := 0
    spentCounter := 1
    spendableAddresses :=
      [{ address := 1
         unlockHeight := none
         spendableOutputs :=
           [{ spentCounter := 0, id := 7, output := { value := 100, spendHash := 1 } },
            { spentCounter := 0, id := 8, output := { value := 50, spendHash := 1 } }] }]
    transactionCounter := 0
    transactions := [] }

/-- A concrete builder run: two transactions registered and funded in
interleaving, with output and fee attached to the first. -/
def exActs : List WalletAction :=
  [.register emptyTransaction, .fund 0 60, .register emptyTransaction, .fund 1 40,
   .addOutput 0 { value := 60, spendHash := 2 }, .addMinerFee 0 5]

/-- A concrete wallet holding one funded open transaction (id 0) and one
still-empty open transaction (id 1). -/
def exW3 : Wallet :=
  runActions exWallet2
    [.register emptyTransaction, .fund 0 60, .register emptyTransaction]

/-- A concrete save file whose persisted generation counter is 2, with one
address owning one output. -/
def exFile : WalletFile :=
  { savedAddresses :=
      [{ address := 1
         unlockHeight := none
         outputs := [(7, { value := 100, spendHash := 1 })] }]
    savedSpentCounter := 2
    savedTransactionCounter := 3 }

/-- A concrete server whose consensus set knows the current block. -/
def exServer : Server :=
  { cs := { childTargetOf := fun _ => (77, true) }
    currentBlock := { idVal := 5 }
    blockchainHeight := 9 }

/-! ## Registry lemmas -/

theorem lookupList_append_single (txs : List (Nat × openTransaction)) (n : Nat)
    (x : openTransaction) (id : Nat) :
    lookupList (txs ++ [(n, x)]) id =
      match lookupList txs id with
      | some y => some y
      | none => if n = id then some x else none := by
  induction txs with
  | nil => simp [lookupList]
  | cons e rest ih =>
    by_cases h : e.1 = id <;> simp [lookupList, h, ih]

theorem lookupList_append_single_of_none {txs : List (Nat × openTransaction)} {id : Nat}
    (n : Nat) (x : openTransaction) (hc : lookupList txs id = none) :
    lookupList (txs ++ [(n, x)]) id = if n = id then some x else none := by
  rw [lookupList_append_single, hc]

theorem lookupList_append_single_of_some {txs : List (Nat × openTransaction)} {id : Nat}
    {y : openTransaction} (n : Nat) (x : openTransaction) (hc : lookupList txs id = some y) :
    lookupList (txs ++ [(n, x)]) id = some y := by
  rw [lookupList_append_single, hc]

theorem mem_of_lookupList {txs : List (Nat × openTransaction)} {id : Nat}
    {ot : openTransaction} (h : lookupList txs id = some ot) : (id, ot) ∈ txs := by
  induction txs with
  | nil => simp [lookupList] at h
  | cons e rest ih =>
    obtain ⟨k, v⟩ := e
    by_cases he : k = id
    · simp only [lookupList, if_pos he] at h
      cases h
      subst he
      exact List.mem_cons_self _ _
    · simp only [lookupList, if_neg he] at h
      exact List.mem_cons_of_mem _ (ih h)

theorem lookupList_eq_none_of_keys_lt {txs : List (Nat × openTransaction)} {n : Nat}
    (h : ∀ e ∈ txs, e.1 < n) : lookupList txs n = none := by
  induction txs with
  | nil => rfl
  | cons e rest ih =>
    have hlt : e.1 < n := h e (List.mem_cons_self _ _)
    simp [lookupList, Nat.ne_of_lt hlt]
    exact ih (fun e' he' => h e' (List.mem_cons_of_mem _ he'))

theorem lookupList_update_self {txs : List (Nat × openTransaction)} {id : Nat}
    {ot : openTransaction} (ot1 : openTransaction) (h : lookupList txs id = some ot) :
    lookupList (updateList txs id ot1) id = some ot1 := by
  induction txs with
  | nil => simp [lookupList] at h
  | cons e rest ih =>
    by_cases he : e.1 = id
    · simp [lookupList, updateList, he]
    · simp [lookupList, updateList, he] at h ⊢
      exact ih h

theorem lookupList_update_ne {txs : List (Nat × openTransaction)} {id id' : Nat}
    (ot1 : openTransaction) (h : id ≠ id') :
    lookupList (updateList txs id ot1) id' = lookupList txs id' := by
  induction txs with
  | nil => rfl
  | cons e rest ih =>
    by_cases he : e.1 = id
    · have he' : e.1 ≠ id' := by rw [he]; exact h
      simp only [updateList, List.map_cons, if_pos he] at ih ⊢
      simp only [lookupList, if_neg h, if_neg he']
      exact ih
    · by_cases he' : e.1 = id'
      · simp only [updateList, List.map_cons, if_neg he] at ih ⊢
        simp only [lookupList, if_pos he']
      · simp only [updateList, List.map_cons, if_neg he] at ih ⊢
        simp only [lookupList, if_neg he']
        exact ih

theorem lookupList_remove_self (txs : List (Nat × openTransaction)) (id : Nat) :
    lookupList (removeList txs id) id = none := by
  induction txs with
  | nil => rfl
  | cons e rest ih =>
    by_cases he : e.1 = id
    · simp only [removeList, List.filter_cons, he] at ih ⊢
      simpa using ih
    · simp only [removeList, List.filter_cons] at ih ⊢
      rw [if_pos (by simpa using he)]
      simp only [lookupList, if_neg he]
      exact ih

theorem lookupList_remove_ne {txs : List (Nat × openTransaction)} {id id' : Nat}
    (h : id ≠ id') :
    lookupList (removeList txs id) id' = lookupList txs id' := by
  induction txs with
  | nil => rfl
  | cons e rest ih =>
    by_cases he : e.1 = id
    · have he' : e.1 ≠ id' := by rw [he]; exact h
      simp only [removeList, List.filter_cons, he] at ih ⊢
      simp only [lookupList, if_neg he']
      simpa using ih
    · simp only [removeList, List.filter_cons] at ih ⊢
      rw [if_pos (by simpa using he)]
      by_cases he' : e.1 = id'
      · simp only [lookupList, if_pos he']
      · simp only [lookupList, if_neg he']
        exact ih

theorem mem_updateList {txs : List (Nat × openTransaction)} {id : Nat}
    {ot1 : openTransaction} {e' : Nat × openTransaction}
    (h : e' ∈ updateList txs id ot1) :
    ∃ e ∈ txs, e' = if e.1 = id then (id, ot1) else e := by
  simp only [updateList, List.mem_map] at h
  rcases h with ⟨e, he, rfl⟩
  exact ⟨e, he, rfl⟩

theorem mem_removeList {txs : List (Nat × openTransaction)} {id : Nat}
    {e : Nat × openTransaction} (h : e ∈ removeList txs id) : e ∈ txs := by
  simp only [removeList, List.mem_filter] at h
  exact h.1

/-! ## Address-book lemmas -/

theorem mem_unspentOutputsList {w : Wallet} {o : spendableOutput} :
    o ∈ unspentOutputsList w ↔
      (∃ sa, sa ∈ w.spendableAddresses ∧ addressUnlocked sa w.prevHeight = true ∧
        o ∈ sa.spendableOutputs) ∧ o.spentCounter < w.spentCounter := by
  simp only [unspentOutputsList, List.mem_flatMap, List.mem_filter, decide_eq_true_eq]
  constructor
  · rintro ⟨sa, ⟨hsa, hu⟩, ho, hc⟩
    exact ⟨⟨sa, hsa, hu, ho⟩, hc⟩
  · rintro ⟨⟨sa, hsa, hu, ho⟩, hc⟩
    exact ⟨sa, ⟨hsa, hu⟩, ho, hc⟩

theorem mem_of_mem_selectPrefix {amount : Currency} {l : List spendableOutput}
    {o : spendableOutput} (h : o ∈ selectPrefix amount l) : o ∈ l := by
  induction l generalizing amount with
  | nil => simp [selectPrefix] at h
  | cons x rest ih =>
    by_cases ha : amount = 0
    · simp [selectPrefix, ha] at h
    · simp only [selectPrefix, if_neg ha, List.mem_cons] at h
      rcases h with h | h
      · exact List.mem_cons.mpr (Or.inl h)
      · exact List.mem_cons_of_mem _ (ih h)

/-! ## Projection lemmas for the book-mutating helpers -/

@[simp] theorem markOutputsSpent_transactions (w : Wallet) (ids : List OutputID) :
    (markOutputsSpent w ids).transactions = w.transactions := rfl

@[simp] theorem markOutputsSpent_transactionCounter (w : Wallet) (ids : List OutputID) :
    (markOutputsSpent w ids).transactionCounter = w.transactionCounter := rfl

@[simp] theorem markOutputsSpent_spentCounter (w : Wallet) (ids : List OutputID) :
    (markOutputsSpent w ids).spentCounter = w.spentCounter := rfl

@[simp] theorem markOutputsSpent_prevHeight (w : Wallet) (ids : List OutputID) :
    (markOutputsSpent w ids).prevHeight = w.prevHeight := rfl

@[simp] theorem clearSpentMarks_transactions (w : Wallet) (ids : List OutputID) :
    (clearSpentMarks w ids).transactions = w.transactions := rfl

@[simp] theorem clearSpentMarks_transactionCounter (w : Wallet) (ids : List OutputID) :
    (clearSpentMarks w ids).transactionCounter = w.transactionCounter := rfl

@[simp] theorem clearSpentMarks_spentCounter (w : Wallet) (ids : List OutputID) :
    (clearSpentMarks w ids).spentCounter = w.spentCounter := rfl

@[simp] theorem removeOutputs_transactions (w : Wallet) (ids : List OutputID) :
    (removeOutputs w ids).transactions = w.transactions := rfl

@[simp] theorem removeOutputs_transactionCounter (w : Wallet) (ids : List OutputID) :
    (removeOutputs w ids).transactionCounter = w.transactionCounter := rfl

@[simp] theorem removeOutputs_spentCounter (w : Wallet) (ids : List OutputID) :
    (removeOutputs w ids).spentCounter = w.spentCounter := rfl

@[simp] theorem resetGeneration_transactions (w : Wallet) :
    (resetGeneration w).transactions = w.transactions := rfl

@[simp] theorem resetGeneration_spendableAddresses (w : Wallet) :
    (resetGeneration w).spendableAddresses = w.spendableAddresses := rfl

@[simp] theorem resetGeneration_spentCounter (w : Wallet) :
    (resetGeneration w).spentCounter = w.spentCounter + 1 := rfl

/-! ## The no-double-reservation invariant (claim C1) -/

/-- The inductive invariant behind no-double-reservation: registry keys stay
below the id counter, the reserved-output sets of distinct live open
transactions are disjoint, and every output reserved by a live open
transaction is marked at the wallet's current generation in the address
book. -/
structure ReservationInv (w : Wallet) : Prop where
  keysLt : ∀ e ∈ w.transactions, e.1 < w.transactionCounter
  disjoint : ∀ id1 id2 ot1 ot2, id1 ≠ id2 →
    lookupTransaction w id1 = some ot1 → lookupTransaction w id2 = some ot2 →
    ∀ oid, oid ∈ ot1.reservedOutputs → oid ∉ ot2.reservedOutputs
  reservedMarked : ∀ id ot, lookupTransaction w id = some ot →
    ∀ oid ∈ ot.reservedOutputs, ∀ sa ∈ w.spendableAddresses,
      ∀ o ∈ sa.spendableOutputs, o.id = oid → o.spentCounter = w.spentCounter

theorem reservationInv_of_no_transactions {w : Wallet} (h : w.transactions = []) :
    ReservationInv w := by
  refine ⟨?_, ?_, ?_⟩
  · intro e he
    rw [h] at he
    simp at he
  · intro id1 id2 ot1 ot2 _ h1 _
    rw [lookupTransaction, h] at h1
    simp [lookupList] at h1
  · intro id ot hot
    rw [lookupTransaction, h] at hot
    simp [lookupList] at hot

theorem reservationInv_register {w : Wallet} (t : Transaction)
    (h : ReservationInv w) : ReservationInv (RegisterTransaction w t).2.1 := by
  refine ⟨?_, ?_, ?_⟩
  · intro e he
    simp only [RegisterTransaction, List.mem_append, List.mem_singleton] at he
    rcases he with he | he
    · exact Nat.lt_succ_of_lt (h.keysLt e he)
    · rw [he]
      exact Nat.lt_succ_self _
  · intro id1 id2 ot1 ot2 hne h1 h2 oid hoid
    simp only [RegisterTransaction, lookupTransaction] at h1 h2
    rcases hc1 : lookupList w.transactions id1 with _ | y1
    · -- id1 is the freshly registered entry: its reservation set is empty
      rw [lookupList_append_single_of_none _ _ hc1] at h1
      by_cases hn : w.transactionCounter = id1
      · rw [if_pos hn] at h1
        cases h1
        simp at hoid
      · rw [if_neg hn] at h1
        cases h1
    · rw [lookupList_append_single_of_some _ _ hc1] at h1
      cases h1
      rcases hc2 : lookupList w.transactions id2 with _ | y2
      · rw [lookupList_append_single_of_none _ _ hc2] at h2
        by_cases hn : w.transactionCounter = id2
        · rw [if_pos hn] at h2
          cases h2
          simp
        · rw [if_neg hn] at h2
          cases h2
      · rw [lookupList_append_single_of_some _ _ hc2] at h2
        cases h2
        exact h.disjoint id1 id2 ot1 ot2 hne hc1 hc2 oid hoid
  · intro id ot hot oid hoid sa hsa o ho hid
    simp only [RegisterTransaction, lookupTransaction] at hot
    rcases hc : lookupList w.transactions id with _ | y
    · rw [lookupList_append_single_of_none _ _ hc] at hot
      by_cases hn : w.transactionCounter = id
      · rw [if_pos hn] at hot
        cases hot
        simp at hoid
      · rw [if_neg hn] at hot
        cases hot
    · rw [lookupList_append_single_of_some _ _ hc] at hot
      cases hot
      exact h.reservedMarked id ot hc oid hoid sa hsa o ho hid

theorem reservationInv_fund {w : Wallet} (id : Nat) (amount : Currency)
    (h : ReservationInv w) : ReservationInv (FundTransaction w id amount).1 := by
  rcases hl : lookupTransaction w id with _ | ot
  · simp only [FundTransaction, hl]
    exact h
  · have hl' : lookupList w.transactions id = some ot := hl
    by_cases hins : outputsTotal (selectPrefix amount (unspentOutputsList w)) < amount
    · simp only [FundTransaction, hl, if_pos hins]
      exact h
    · simp only [FundTransaction, hl, if_neg hins]
      set selIds := (selectPrefix amount (unspentOutputsList w)).map (fun o => o.id)
        with hselIds
      -- No freshly selected output can already be reserved by a live open
      -- transaction: selection only sees generation-below-counter outputs,
      -- while reserved outputs are marked at the counter.
      have factA : ∀ oid ∈ selIds, ∀ id' ot', lookupTransaction w id' = some ot' →
          oid ∉ ot'.reservedOutputs := by
        intro oid hoid id' ot' hlk hmem
        rw [hselIds] at hoid
        rcases List.mem_map.mp hoid with ⟨o, ho, rfl⟩
        rcases mem_unspentOutputsList.mp (mem_of_mem_selectPrefix ho) with
          ⟨⟨sa, hsa, _, hosa⟩, hlt⟩
        have := h.reservedMarked id' ot' hlk o.id hmem sa hsa o hosa rfl
        omega
      refine ⟨?_, ?_, ?_⟩
      · intro e he
        simp only [markOutputsSpent_transactions, markOutputsSpent_transactionCounter] at he ⊢
        rcases mem_updateList he with ⟨e0, he0, hee⟩
        by_cases h0 : e0.1 = id
        · rw [hee, if_pos h0]
          show id < w.transactionCounter
          exact h.keysLt (id, ot) (mem_of_lookupList hl')
        · rw [hee, if_neg h0]
          exact h.keysLt e0 he0
      · intro id1 id2 ot1x ot2x hne h1 h2 oid hoid
        simp only [lookupTransaction, markOutputsSpent_transactions] at h1 h2
        by_cases h1id : id = id1
        · subst h1id
          rw [lookupList_update_self _ hl'] at h1
          cases h1
          rw [lookupList_update_ne _ hne] at h2
          rcases List.mem_append.mp hoid with hmem | hmem
          · exact h.disjoint id id2 ot ot2x hne hl' h2 oid hmem
          · exact factA oid hmem id2 ot2x h2
        · rw [lookupList_update_ne _ h1id] at h1
          by_cases h2id : id = id2
          · subst h2id
            rw [lookupList_update_self _ hl'] at h2
            cases h2
            intro hmem
            rcases List.mem_append.mp hmem with hmem2 | hmem2
            · exact h.disjoint id1 id ot1x ot hne h1 hl' oid hoid hmem2
            · exact factA oid hmem2 id1 ot1x h1 hoid
          · rw [lookupList_update_ne _ h2id] at h2
            exact h.disjoint id1 id2 ot1x ot2x hne h1 h2 oid hoid
      · intro id' ot' hot' oid hoid sa' hsa' o' ho' hid'
        simp only [lookupTransaction, markOutputsSpent_transactions,
          markOutputsSpent_spentCounter] at hot' ⊢
        simp only [markOutputsSpent, List.mem_map] at hsa'
        rcases hsa' with ⟨sa, hsa, rfl⟩
        simp only [List.mem_map] at ho'
        rcases ho' with ⟨o, ho, rfl⟩
        by_cases hoin : o.id ∈ selIds
        · simp [if_pos hoin]
        · rw [if_neg hoin] at hid' ⊢
          by_cases hid2 : id = id'
          · subst hid2
            rw [lookupList_update_self _ hl'] at hot'
            cases hot'
            rcases List.mem_append.mp hoid with hmem | hmem
            · exact h.reservedMarked id ot hl' oid hmem sa hsa o ho hid'
            · exact absurd (show o.id ∈ selIds by rw [hid']; exact hmem) hoin
          · rw [lookupList_update_ne _ hid2] at hot'
            exact h.reservedMarked id' ot' hot' oid hoid sa hsa o ho hid'

theorem reservationInv_updateSameReserved {w : Wallet} {id : Nat} {ot ot1 : openTransaction}
    (h : ReservationInv w) (hl : lookupList w.transactions id = some ot)
    (hres : ot1.reservedOutputs = ot.reservedOutputs) :
    ReservationInv { w with transactions := updateList w.transactions id ot1 } := by
  refine ⟨?_, ?_, ?_⟩
  · intro e he
    rcases mem_updateList he with ⟨e0, he0, hee⟩
    by_cases h0 : e0.1 = id
    · rw [hee, if_pos h0]
      show id < w.transactionCounter
      exact h.keysLt (id, ot) (mem_of_lookupList hl)
    · rw [hee, if_neg h0]
      exact h.keysLt e0 he0
  · intro id1 id2 ot1x ot2x hne h1 h2 oid hoid
    simp only [lookupTransaction] at h1 h2
    by_cases h1id : id = id1
    · subst h1id
      rw [lookupList_update_self _ hl] at h1
      cases h1
      rw [lookupList_update_ne _ hne] at h2
      rw [hres] at hoid
      exact h.disjoint id id2 ot ot2x hne hl h2 oid hoid
    · rw [lookupList_update_ne _ h1id] at h1
      by_cases h2id : id = id2
      · subst h2id
        rw [lookupList_update_self _ hl] at h2
        cases h2
        rw [hres]
        exact h.disjoint id1 id ot1x ot hne h1 hl oid hoid
      · rw [lookupList_update_ne _ h2id] at h2
        exact h.disjoint id1 id2 ot1x ot2x hne h1 h2 oid hoid
  · intro id' ot' hot' oid hoid sa hsa o ho hid'
    simp only [lookupTransaction] at hot'
    by_cases hid2 : id = id'
    · subst hid2
      rw [lookupList_update_self _ hl] at hot'
      cases hot'
      rw [hres] at hoid
      exact h.reservedMarked id ot hl oid hoid sa hsa o ho hid'
    · rw [lookupList_update_ne _ hid2] at hot'
      exact h.reservedMarked id' ot' hot' oid hoid sa hsa o ho hid'

theorem reservationInv_addMinerFee {w : Wallet} (id : Nat) (fee : Currency)
    (h : ReservationInv w) : ReservationInv (AddMinerFee w id fee).1 := by
  rcases hl : lookupTransaction w id with _ | ot
  · simp only [AddMinerFee, hl]
    exact h
  · rcases hst : ot.txState with _ | _
    · simp only [AddMinerFee, hl, hst]
      exact h
    · simp only [AddMinerFee, hl, hst]
      exact reservationInv_updateSameReserved h hl rfl

theorem reservationInv_addOutput {w : Wallet} (id : Nat) (o : Output)
    (h : ReservationInv w) : ReservationInv (AddOutput w id o).1 := by
  rcases hl : lookupTransaction w id with _ | ot
  · simp only [AddOutput, hl]
    exact h
  · rcases hst : ot.txState with _ | _
    · simp only [AddOutput, hl, hst]
      exact h
    · simp only [AddOutput, hl, hst]
      exact reservationInv_updateSameReserved h hl rfl

theorem reservationInv_sign {w : Wallet} (id : Nat) (finalize : Bool)
    (h : ReservationInv w) : ReservationInv (SignTransaction w id finalize).2.1 := by
  rcases hl : lookupTransaction w id with _ | ot
  · simp only [SignTransaction, hl]
    exact h
  · have hl' : lookupList w.transactions id = some ot := hl
    rcases hst : ot.txState with _ | _
    · simp only [SignTransaction, hl, hst]
      exact h
    · rcases hf : finalize with _ | _
      · simp only [SignTransaction, hl, hst, hf]
        exact h
      · simp only [SignTransaction, hl, hst, hf, if_true]
        refine ⟨?_, ?_, ?_⟩
        · intro e he
          simp only [removeOutputs_transactions, removeOutputs_transactionCounter] at he ⊢
          exact h.keysLt e (mem_removeList he)
        · intro id1 id2 ot1x ot2x hne h1 h2 oid hoid
          simp only [lookupTransaction, removeOutputs_transactions] at h1 h2
          by_cases h1id : id = id1
          · subst h1id
            rw [lookupList_remove_self] at h1
            cases h1
          · rw [lookupList_remove_ne h1id] at h1
            by_cases h2id : id = id2
            · subst h2id
              rw [lookupList_remove_self] at h2
              cases h2
            · rw [lookupList_remove_ne h2id] at h2
              exact h.disjoint id1 id2 ot1x ot2x hne h1 h2 oid hoid
        · intro id' ot' hot' oid hoid sa' hsa' o' ho' hid'
          simp only [lookupTransaction, removeOutputs_transactions,
            removeOutputs_spentCounter] at hot' ⊢
          by_cases hid2 : id = id'
          · subst hid2
            rw [lookupList_remove_self] at hot'
            cases hot'
          · rw [lookupList_remove_ne hid2] at hot'
            simp only [removeOutputs, List.mem_map] at hsa'
            rcases hsa' with ⟨sa, hsa, rfl⟩
            simp only [List.mem_filter] at ho'
            exact h.reservedMarked id' ot' hot' oid hoid sa hsa o' ho'.1 hid'

theorem reservationInv_abort {w : Wallet} (id : Nat)
    (h : ReservationInv w) : ReservationInv (AbortTransaction w id).1 := by
  rcases hl : lookupTransaction w id with _ | ot
  · simp only [AbortTransaction, hl]
    exact h
  · have hl' : lookupList w.transactions id = some ot := hl
    simp only [AbortTransaction, hl]
    refine ⟨?_, ?_, ?_⟩
    · intro e he
      simp only [clearSpentMarks_transactions, clearSpentMarks_transactionCounter] at he ⊢
      exact h.keysLt e (mem_removeList he)
    · intro id1 id2 ot1x ot2x hne h1 h2 oid hoid
      simp only [lookupTransaction, clearSpentMarks_transactions] at h1 h2
      by_cases h1id : id = id1
      · subst h1id
        rw [lookupList_remove_self] at h1
        cases h1
      · rw [lookupList_remove_ne h1id] at h1
        by_cases h2id : id = id2
        · subst h2id
          rw [lookupList_remove_self] at h2
          cases h2
        · rw [lookupList_remove_ne h2id] at h2
          exact h.disjoint id1 id2 ot1x ot2x hne h1 h2 oid hoid
    · intro id' ot' hot' oid hoid sa' hsa' o' ho' hid'
      simp only [lookupTransaction, clearSpentMarks_transactions,
        clearSpentMarks_spentCounter] at hot' ⊢
      by_cases hid2 : id = id'
      · subst hid2
        rw [lookupList_remove_self] at hot'
        cases hot'
      · rw [lookupList_remove_ne hid2] at hot'
        simp only [clearSpentMarks, List.mem_map] at hsa'
        rcases hsa' with ⟨sa, hsa, rfl⟩
        simp only [List.mem_map] at ho'
        rcases ho' with ⟨o, ho, rfl⟩
        by_cases hoin : o.id ∈ ot.reservedOutputs
        · -- `o` was reserved by the aborted transaction, hence — by
          -- disjointness — not by the surviving transaction `id'`.
          rw [if_pos hoin] at hid'
          exfalso
          have : o.id ∈ ot'.reservedOutputs := by
            rw [show o.id = oid from hid']
            exact hoid
          exact h.disjoint id' id ot' ot (Ne.symm hid2) hot' hl' o.id this hoin
        · rw [if_neg hoin] at hid' ⊢
          exact h.reservedMarked id' ot' hot' oid hoid sa hsa o ho hid'

theorem reservationInv_applyAction {w : Wallet} {a : WalletAction}
    (h : ReservationInv w) (hb : builderStep a = true) :
    ReservationInv (applyAction w a) := by
  cases a with
  | register t => exact reservationInv_register t h
  | fund id amount => exact reservationInv_fund id amount h
  | addOutput id o => exact reservationInv_addOutput id o h
  | addMinerFee id fee => exact reservationInv_addMinerFee id fee h
  | sign id finalize => exact reservationInv_sign id finalize h
  | abort id => exact reservationInv_abort id h
  | reset => simp [builderStep] at hb

theorem reservationInv_runActions {w : Wallet} {acts : List WalletAction}
    (h : ReservationInv w) (hb : ∀ a ∈ acts, builderStep a = true) :
    ReservationInv (runActions w acts) := by
  induction acts generalizing w with
  | nil => exact h
  | cons a rest ih =>
    exact ih (reservationInv_applyAction h (hb a (List.mem_cons_self a rest)))
      (fun a' ha' => hb a' (List.mem_cons_of_mem _ ha'))

/-- Claim C1: At every point in time, no output is reserved by two live
OpenTransactions simultaneously: starting from a wallet with an empty
open-transaction registry, after any sequence of register/fund/addOutput/
addMinerFee/sign/abort steps, any two distinct ids present in the registry
have disjoint reserved-output sets (and since every prefix of a step
sequence is itself such a sequence, this holds at every intermediate
point). -/
theorem no_double_reservation (w0 : Wallet) (acts : List WalletAction)
    (h0 : w0.transactions = []) (hb : ∀ a ∈ acts, builderStep a = true) :
    ∀ id1 id2 ot1 ot2, id1 ≠ id2 →
      lookupTransaction (runActions w0 acts) id1 = some ot1 →
      lookupTransaction (runActions w0 acts) id2 = some ot2 →
      ∀ oid, oid ∈ ot1.reservedOutputs → oid ∉ ot2.reservedOutputs :=
  (reservationInv_runActions (reservationInv_of_no_transactions h0) hb).disjoint

/-- Witness for C1 at a concrete wallet and step sequence that leaves two
live funded transactions in the registry. -/
theorem no_double_reservation_witness :
    exWallet2.transactions = [] ∧ (∀ a ∈ exActs, builderStep a = true) ∧
    (∀ id1 id2 ot1 ot2, id1 ≠ id2 →
      lookupTransaction (runActions exWallet2 exActs) id1 = some ot1 →
      lookupTransaction (runActions exWallet2 exActs) id2 = some ot2 →
      ∀ oid, oid ∈ ot1.reservedOutputs → oid ∉ ot2.reservedOutputs) :=
  ⟨rfl, by decide, no_double_reservation exWallet2 exActs rfl (by decide)⟩

/-! ## The generation-counter invariant (claim C7) -/

theorem gensBounded_mark {w : Wallet} (ids : List OutputID) (h : GensBounded w) :
    GensBounded (markOutputsSpent w ids) := by
  intro sa' hsa' o' ho'
  simp only [markOutputsSpent, List.mem_map] at hsa'
  rcases hsa' with ⟨sa, hsa, rfl⟩
  simp only [List.mem_map] at ho'
  rcases ho' with ⟨o, ho, rfl⟩
  by_cases hin : o.id ∈ ids
  · simp [if_pos hin, markOutputsSpent]
  · rw [if_neg hin]
    simpa [markOutputsSpent] using h sa hsa o ho

theorem gensBounded_clear {w : Wallet} (ids : List OutputID) (h : GensBounded w) :
    GensBounded (clearSpentMarks w ids) := by
  intro sa' hsa' o' ho'
  simp only [clearSpentMarks, List.mem_map] at hsa'
  rcases hsa' with ⟨sa, hsa, rfl⟩
  simp only [List.mem_map] at ho'
  rcases ho' with ⟨o, ho, rfl⟩
  by_cases hin : o.id ∈ ids
  · simp [if_pos hin, clearSpentMarks]
  · rw [if_neg hin]
    simpa [clearSpentMarks] using h sa hsa o ho

theorem gensBounded_remove {w : Wallet} (ids : List OutputID) (h : GensBounded w) :
    GensBounded (removeOutputs w ids) := by
  intro sa' hsa' o' ho'
  simp only [removeOutputs, List.mem_map] at hsa'
  rcases hsa' with ⟨sa, hsa, rfl⟩
  simp only [List.mem_filter] at ho'
  simpa [removeOutputs] using h sa hsa o' ho'.1

theorem gensBounded_applyAction {w : Wallet} (a : WalletAction) (h : GensBounded w) :
    GensBounded (applyAction w a) := by
  cases a with
  | register t => exact h
  | fund id amount =>
    rcases hl : lookupTransaction w id with _ | ot
    · simpa only [applyAction, FundTransaction, hl] using h
    · by_cases hins : outputsTotal (selectPrefix amount (unspentOutputsList w)) < amount
      · simpa only [applyAction, FundTransaction, hl, if_pos hins] using h
      · simp only [applyAction, FundTransaction, hl, if_neg hins]
        exact gensBounded_mark _ h
  | addOutput id o =>
    rcases hl : lookupTransaction w id with _ | ot
    · simpa only [applyAction, AddOutput, hl] using h
    · rcases hst : ot.txState with _ | _
      · simpa only [applyAction, AddOutput, hl, hst] using h
      · simpa only [applyAction, AddOutput, hl, hst] using h
  | addMinerFee id fee =>
    rcases hl : lookupTransaction w id with _ | ot
    · simpa only [applyAction, AddMinerFee, hl] using h
    · rcases hst : ot.txState with _ | _
      · simpa only [applyAction, AddMinerFee, hl, hst] using h
      · simpa only [applyAction, AddMinerFee, hl, hst] using h
  | sign id finalize =>
    rcases hl : lookupTransaction w id with _ | ot
    · simpa only [applyAction, SignTransaction, hl] using h
    · rcases hst : ot.txState with _ | _
      · simpa only [applyAction, SignTransaction, hl, hst] using h
      · rcases hf : finalize with _ | _
        · simpa only [applyAction, SignTransaction, hl, hst, hf] using h
        · simp only [applyAction, SignTransaction, hl, hst, hf, if_true]
          exact gensBounded_remove _ h
  | abort id =>
    rcases hl : lookupTransaction w id with _ | ot
    · simpa only [applyAction, AbortTransaction, hl] using h
    · simp only [applyAction, AbortTransaction, hl]
      exact gensBounded_clear _ h
  | reset =>
    intro sa hsa o ho
    simp only [applyAction, resetGeneration_spendableAddresses] at hsa
    simp only [applyAction, resetGeneration_spentCounter]
    exact Nat.le_succ_of_le (h sa hsa o ho)

theorem gensBounded_runActions {w : Wallet} {acts : List WalletAction}
    (h : GensBounded w) : GensBounded (runActions w acts) := by
  induction acts generalizing w with
  | nil => exact h
  | cons a rest ih => exact ih (gensBounded_applyAction a h)

/-- Claim C7: in every wallet state reachable from one whose stored generations
are bounded by its counter, every output's stored spent-generation stays at
most the wallet's `spentCounter`; an output is tentatively spent exactly
when its generation equals the counter (equivalently, exactly when it fails
the `spentCounter`-strictly-below test that output selection applies); and
incrementing the counter (`resetGeneration`) leaves every per-output record
untouched while making every output register as not tentatively spent. -/
theorem generation_invariant (w0 : Wallet) (acts : List WalletAction)
    (h0 : GensBounded w0) :
    GensBounded (runActions w0 acts) ∧
    (∀ sa ∈ (runActions w0 acts).spendableAddresses, ∀ o ∈ sa.spendableOutputs,
      (tentativelySpent (runActions w0 acts) o ↔
        ¬ o.spentCounter < (runActions w0 acts).spentCounter)) ∧
    (resetGeneration (runActions w0 acts)).spendableAddresses =
      (runActions w0 acts).spendableAddresses ∧
    (∀ sa ∈ (resetGeneration (runActions w0 acts)).spendableAddresses,
      ∀ o ∈ sa.spendableOutputs,
        ¬ tentativelySpent (resetGeneration (runActions w0 acts)) o) := by
  have hB : GensBounded (runActions w0 acts) := gensBounded_runActions h0
  refine ⟨hB, ?_, rfl, ?_⟩
  · intro sa hsa o ho
    have := hB sa hsa o ho
    unfold tentativelySpent
    omega
  · intro sa hsa o ho
    simp only [resetGeneration_spendableAddresses] at hsa
    have := hB sa hsa o ho
    unfold tentativelySpent
    simp only [resetGeneration_spentCounter]
    omega

/-- Witness for C7 at a concrete wallet and step sequence (the run marks
output 7 spent, so the reset in the conclusion genuinely unmarks it). -/
theorem generation_invariant_witness :
    GensBounded exWallet2 ∧
    (GensBounded (runActions exWallet2 exActs) ∧
    (∀ sa ∈ (runActions exWallet2 exActs).spendableAddresses, ∀ o ∈ sa.spendableOutputs,
      (tentativelySpent (runActions exWallet2 exActs) o ↔
        ¬ o.spentCounter < (runActions exWallet2 exActs).spentCounter)) ∧
    (resetGeneration (runActions exWallet2 exActs)).spendableAddresses =
      (runActions exWallet2 exActs).spendableAddresses ∧
    (∀ sa ∈ (resetGeneration (runActions exWallet2 exActs)).spendableAddresses,
      ∀ o ∈ sa.spendableOutputs,
        ¬ tentativelySpent (resetGeneration (runActions exWallet2 exActs)) o)) :=
  ⟨by decide, generation_invariant exWallet2 exActs (by decide)⟩

/-! ## Builder state-machine enforcement (claim C6) -/

/-- Claim C6: `addOutput`, `addMinerFee` and `sign` on an `Empty` (registered but
never successfully funded) transaction fail with `InvalidTransactionState`
and return the wallet unchanged; every builder operation on an id that is
not in the registry fails with `UnknownTransaction` and returns the wallet
unchanged; and both `abort` and `sign(finalize=true)` remove their id
from the registry, so later operations on that id hit the unknown-id
case. -/
theorem builder_state_machine_enforcement (w : Wallet) (id : Nat)
    (ot : openTransaction) (o : Output) (amount fee : Currency) (finalize : Bool) :
    (lookupTransaction w id = some ot → ot.txState = .Empty →
      AddOutput w id o = (w, some .InvalidTransactionState) ∧
      AddMinerFee w id fee = (w, some .InvalidTransactionState) ∧
      SignTransaction w id finalize = (emptyTransaction, w, some .InvalidTransactionState)) ∧
    (lookupTransaction w id = none →
      FundTransaction w id amount = (w, some .UnknownTransaction) ∧
      AddOutput w id o = (w, some .UnknownTransaction) ∧
      AddMinerFee w id fee = (w, some .UnknownTransaction) ∧
      SignTransaction w id finalize = (emptyTransaction, w, some .UnknownTransaction) ∧
      AbortTransaction w id = (w, some .UnknownTransaction)) ∧
    ((AbortTransaction w id).2 = none →
      lookupTransaction (AbortTransaction w id).1 id = none) ∧
    (∀ t w1, SignTransaction w id true = (t, w1, none) →
      lookupTransaction w1 id = none) := by
  refine ⟨?_, ?_, ?_, ?_⟩
  · intro hl hst
    exact ⟨by simp only [AddOutput, hl, hst], by simp only [AddMinerFee, hl, hst],
      by simp only [SignTransaction, hl, hst]⟩
  · intro hl
    exact ⟨by simp only [FundTransaction, hl], by simp only [AddOutput, hl],
      by simp only [AddMinerFee, hl], by simp only [SignTransaction, hl],
      by simp only [AbortTransaction, hl]⟩
  · intro habort
    rcases hl : lookupTransaction w id with _ | ot'
    · simp only [AbortTransaction, hl] at habort
      exact absurd habort (by simp)
    · simp only [AbortTransaction, hl]
      simp only [lookupTransaction, clearSpentMarks_transactions]
      exact lookupList_remove_self _ _
  · intro t w1 hsign
    rcases hl : lookupTransaction w id with _ | ot'
    · simp [SignTransaction, hl] at hsign
    · rcases hst : ot'.txState with _ | _
      · simp [SignTransaction, hl, hst] at hsign
      · simp only [SignTransaction, hl, hst, if_true, Prod.mk.injEq] at hsign
        obtain ⟨-, hw1, -⟩ := hsign
        rw [← hw1]
        simp only [lookupTransaction, removeOutputs_transactions]
        exact lookupList_remove_self _ _

/-- Witness for C6 on a concrete wallet with a funded transaction (id 0),
an empty transaction (id 1) and an unregistered id (9). -/
theorem builder_state_machine_enforcement_witness :
    (AddOutput exW3 1 { value := 60, spendHash := 2 } = (exW3, some .InvalidTransactionState) ∧
     AddMinerFee exW3 1 5 = (exW3, some .InvalidTransactionState) ∧
     SignTransaction exW3 1 true = (emptyTransaction, exW3, some .InvalidTransactionState)) ∧
    (FundTransaction exW3 9 20 = (exW3, some .UnknownTransaction) ∧
     AddOutput exW3 9 { value := 60, spendHash := 2 } = (exW3, some .UnknownTransaction) ∧
     AddMinerFee exW3 9 5 = (exW3, some .UnknownTransaction) ∧
     SignTransaction exW3 9 true = (emptyTransaction, exW3, some .UnknownTransaction) ∧
     AbortTransaction exW3 9 = (exW3, some .UnknownTransaction)) ∧
    lookupTransaction (AbortTransaction exW3 0).1 0 = none ∧
    lookupTransaction (SignTransaction exW3 0 true).2.1 0 = none := by
  refine ⟨?_, ?_, ?_, ?_⟩
  · exact (builder_state_machine_enforcement exW3 1 ⟨emptyTransaction, [], .Empty⟩
      { value := 60, spendHash := 2 } 20 5 true).1 (by decide) rfl
  · exact (builder_state_machine_enforcement exW3 9 ⟨emptyTransaction, [], .Empty⟩
      { value := 60, spendHash := 2 } 20 5 true).2.1 (by decide)
  · exact (builder_state_machine_enforcement exW3 0 ⟨emptyTransaction, [], .Empty⟩
      { value := 60, spendHash := 2 } 20 5 true).2.2.1 (by decide)
  · exact (builder_state_machine_enforcement exW3 0 ⟨emptyTransaction, [], .Empty⟩
      { value := 60, spendHash := 2 } 20 5 true).2.2.2 (SignTransaction exW3 0 true).1
      (SignTransaction exW3 0 true).2.1 (by decide)

/-! ## Id uniqueness (claim C8) -/

theorem fund_transactionCounter (w : Wallet) (id : Nat) (amount : Currency) :
    (FundTransaction w id amount).1.transactionCounter = w.transactionCounter := by
  rcases hl : lookupTransaction w id with _ | ot
  · simp only [FundTransaction, hl]
  · by_cases hins : outputsTotal (selectPrefix amount (unspentOutputsList w)) < amount
    · simp only [FundTransaction, hl, if_pos hins]
    · simp only [FundTransaction, hl, if_neg hins, markOutputsSpent_transactionCounter]

theorem addMinerFee_transactionCounter (w : Wallet) (id : Nat) (fee : Currency) :
    (AddMinerFee w id fee).1.transactionCounter = w.transactionCounter := by
  rcases hl : lookupTransaction w id with _ | ot
  · simp only [AddMinerFee, hl]
  · rcases hst : ot.txState with _ | _ <;> simp only [AddMinerFee, hl, hst]

theorem addOutput_transactionCounter (w : Wallet) (id : Nat) (o : Output) :
    (AddOutput w id o).1.transactionCounter = w.transactionCounter := by
  rcases hl : lookupTransaction w id with _ | ot
  · simp only [AddOutput, hl]
  · rcases hst : ot.txState with _ | _ <;> simp only [AddOutput, hl, hst]

theorem sign_transactionCounter (w : Wallet) (id : Nat) (finalize : Bool) :
    (SignTransaction w id finalize).2.1.transactionCounter = w.transactionCounter := by
  rcases hl : lookupTransaction w id with _ | ot
  · simp only [SignTransaction, hl]
  · rcases hst : ot.txState with _ | _
    · simp only [SignTransaction, hl, hst]
    · rcases hf : finalize with _ | _
      · simp [SignTransaction, hl, hst, hf]
      · simp [SignTransaction, hl, hst, hf]

theorem abort_transactionCounter (w : Wallet) (id : Nat) :
    (AbortTransaction w id).1.transactionCounter = w.transactionCounter := by
  rcases hl : lookupTransaction w id with _ | ot
  · simp only [AbortTransaction, hl]
  · simp only [AbortTransaction, hl, clearSpentMarks_transactionCounter]

theorem transactionCounter_le_applyAction (w : Wallet) (a : WalletAction) :
    w.transactionCounter ≤ (applyAction w a).transactionCounter := by
  cases a with
  | register t => exact Nat.le_succ _
  | fund id amount => exact Nat.le_of_eq (fund_transactionCounter w id amount).symm
  | addOutput id o => exact Nat.le_of_eq (addOutput_transactionCounter w id o).symm
  | addMinerFee id fee => exact Nat.le_of_eq (addMinerFee_transactionCounter w id fee).symm
  | sign id finalize => exact Nat.le_of_eq (sign_transactionCounter w id finalize).symm
  | abort id => exact Nat.le_of_eq (abort_transactionCounter w id).symm
  | reset => exact Nat.le_refl _

theorem counter_le_registeredIds {w : Wallet} {acts : List WalletAction} :
    ∀ x ∈ registeredIds w acts, w.transactionCounter ≤ x := by
  induction acts generalizing w with
  | nil => simp [registeredIds]
  | cons a rest ih =>
    cases a with
    | register t =>
      intro x hx
      simp only [registeredIds, List.mem_cons] at hx
      rcases hx with rfl | hx
      · exact Nat.le_refl _
      · exact Nat.le_trans (transactionCounter_le_applyAction w (.register t)) (ih x hx)
    | fund id amount =>
      intro x hx
      exact Nat.le_trans (transactionCounter_le_applyAction w (.fund id amount))
        (ih x hx)
    | addOutput id o =>
      intro x hx
      exact Nat.le_trans (transactionCounter_le_applyAction w (.addOutput id o))
        (ih x hx)
    | addMinerFee id fee =>
      intro x hx
      exact Nat.le_trans (transactionCounter_le_applyAction w (.addMinerFee id fee))
        (ih x hx)
    | sign id finalize =>
      intro x hx
      exact Nat.le_trans (transactionCounter_le_applyAction w (.sign id finalize))
        (ih x hx)
    | abort id =>
      intro x hx
      exact Nat.le_trans (transactionCounter_le_applyAction w (.abort id)) (ih x hx)
    | reset =>
      intro x hx
      exact Nat.le_trans (transactionCounter_le_applyAction w .reset) (ih x hx)

theorem registeredIds_pairwise (w : Wallet) (acts : List WalletAction) :
    (registeredIds w acts).Pairwise (· < ·) := by
  induction acts generalizing w with
  | nil => exact List.Pairwise.nil
  | cons a rest ih =>
    cases a with
    | register t =>
      refine List.Pairwise.cons ?_ (ih _)
      intro x hx
      have hge := counter_le_registeredIds x hx
      have hc : (applyAction w (.register t)).transactionCounter =
          w.transactionCounter + 1 := rfl
      omega
    | fund id amount => exact ih _
    | addOutput id o => exact ih _
    | addMinerFee id fee => exact ih _
    | sign id finalize => exact ih _
    | abort id => exact ih _
    | reset => exact ih _

/-- Claim C8: over the lifetime of one wallet value, the ids handed out by
`RegisterTransaction` are strictly increasing along any operation sequence
— in particular pairwise distinct — so an id is never reused, not even
after the transaction holding it was finalized by `sign(finalize=true)`
or aborted (the sequence may contain any such steps). -/
theorem register_ids_never_reused (w0 : Wallet) (acts : List WalletAction) :
    (registeredIds w0 acts).Pairwise (· < ·) ∧ (registeredIds w0 acts).Nodup :=
  ⟨registeredIds_pairwise w0 acts,
   (registeredIds_pairwise w0 acts).imp Nat.ne_of_lt⟩

/-! ## SpendCoins: composition, failure and rejection behaviour
(claims C2, C3, C4, C5) -/

/-- Claim C4: `SpendCoins` is exactly the manual composition of the builder
primitives register→fund→addMinerFee→addOutput→sign(finalize=true)→
submit-to-ledger, with identical result (transaction, error) and identical
wallet state, for every amount, destination and ledger behaviour. -/
theorem spendCoins_eq_manual (accept : Transaction → Option WalletError) (w : Wallet)
    (amount : Currency) (dest : CoinAddress) :
    SpendCoins accept w amount dest = sendCoinsManual accept w amount dest := by
  simp only [SpendCoins, sendCoinsManual, RegisterTransaction]
  rcases h2 : FundTransaction
      { w with
          transactionCounter := w.transactionCounter + 1,
          transactions := w.transactions ++
            [(w.transactionCounter,
              { transaction := emptyTransaction, reservedOutputs := [], txState := .Empty })] }
      w.transactionCounter (amount + 10) with ⟨w2, e2⟩
  rcases e2 with _ | e2
  · rcases h3 : AddMinerFee w2 w.transactionCounter 10 with ⟨w3, e3⟩
    rcases e3 with _ | e3
    · rcases h4 : AddOutput w3 w.transactionCounter { value := amount, spendHash := dest } with
        ⟨w4, e4⟩
      rcases e4 with _ | e4
      · rcases h5 : SignTransaction w4 w.transactionCounter true with ⟨t, w5, e5⟩
        rcases e5 with _ | e5 <;> simp [h2, h3, h4, h5]
      · simp [h2, h3, h4]
    · simp [h2, h3]
  · simp [h2]

theorem fund_error_state {w : Wallet} {id : Nat} {amount : Currency} {e : WalletError}
    (h : (FundTransaction w id amount).2 = some e) : (FundTransaction w id amount).1 = w := by
  rcases hl : lookupTransaction w id with _ | ot
  · simp [FundTransaction, hl]
  · by_cases hins : outputsTotal (selectPrefix amount (unspentOutputsList w)) < amount
    · simp [FundTransaction, hl, hins]
    · simp [FundTransaction, hl, hins] at h

/-- Claim C3, amended: when the funding step of `SpendCoins` fails (in
particular with `InsufficientFunds`), the error is surfaced, the address
book, both balances, the provisional-spent markings and the set of
selectable outputs are exactly as before the call — but the registry is
*not* restored: the open transaction registered at the start of the call
stays behind as an empty entry, and the id counter stays advanced. -/
theorem spendCoins_fund_failure (accept : Transaction → Option WalletError) (w : Wallet)
    (amount : Currency) (dest : CoinAddress) (e : WalletError)
    (hfund : (FundTransaction (RegisterTransaction w emptyTransaction).2.1
        (RegisterTransaction w emptyTransaction).1 (amount + 10)).2 = some e) :
    SpendCoins accept w amount dest =
      (emptyTransaction, (RegisterTransaction w emptyTransaction).2.1, some e) ∧
    (SpendCoins accept w amount dest).2.1.spendableAddresses = w.spendableAddresses ∧
    (∀ full, Balance (SpendCoins accept w amount dest).2.1 full = Balance w full) ∧
    unspentOutputsList (SpendCoins accept w amount dest).2.1 = unspentOutputsList w ∧
    (SpendCoins accept w amount dest).2.1.transactions =
      w.transactions ++ [(w.transactionCounter,
        { transaction := emptyTransaction, reservedOutputs := [], txState := .Empty })] ∧
    (SpendCoins accept w amount dest).2.1.transactionCounter = w.transactionCounter + 1 := by
  have hstate := fund_error_state hfund
  have hmain : SpendCoins accept w amount dest =
      (emptyTransaction, (RegisterTransaction w emptyTransaction).2.1, some e) := by
    simp only [RegisterTransaction] at hfund hstate
    simp only [SpendCoins, RegisterTransaction]
    rcases h2 : FundTransaction
        { w with
            transactionCounter := w.transactionCounter + 1,
            transactions := w.transactions ++
              [(w.transactionCounter,
                { transaction := emptyTransaction, reservedOutputs := [], txState := .Empty })] }
        w.transactionCounter (amount + 10) with ⟨w2, e2⟩
    rw [h2] at hfund hstate
    rcases e2 with _ | e2
    · simp at hfund
    · cases hfund
      simp at hstate
      simp [h2, hstate]
  rw [hmain]
  exact ⟨rfl, rfl, fun full => rfl, rfl, rfl, rfl⟩

/-- Claim C3, counterexample: on a wallet with no outputs, `SpendCoins` fails at
the funding step but does not restore the registry — the freshly registered
empty transaction is left behind and the id counter stays advanced, so the
wallet's observable state is not "exactly as it was before the call". -/
theorem spendCoins_fund_failure_counterexample :
    (SpendCoins (fun _ => none) emptyWallet 5 2).2.2 = some .InsufficientFunds ∧
    (SpendCoins (fun _ => none) emptyWallet 5 2).2.1.transactions ≠
      emptyWallet.transactions ∧
    (SpendCoins (fun _ => none) emptyWallet 5 2).2.1.transactionCounter ≠
      emptyWallet.transactionCounter := by
  decide

/-- Witness for the amended C3 at a concrete wallet. -/
theorem spendCoins_fund_failure_witness :
    (FundTransaction (RegisterTransaction emptyWallet emptyTransaction).2.1
        (RegisterTransaction emptyWallet emptyTransaction).1 (5 + 10)).2 =
      some .InsufficientFunds ∧
    (SpendCoins (fun _ => none) emptyWallet 5 2 =
      (emptyTransaction, (RegisterTransaction emptyWallet emptyTransaction).2.1,
        some .InsufficientFunds) ∧
    (SpendCoins (fun _ => none) emptyWallet 5 2).2.1.spendableAddresses =
      emptyWallet.spendableAddresses ∧
    (∀ full, Balance (SpendCoins (fun _ => none) emptyWallet 5 2).2.1 full =
      Balance emptyWallet full) ∧
    unspentOutputsList (SpendCoins (fun _ => none) emptyWallet 5 2).2.1 =
      unspentOutputsList emptyWallet ∧
    (SpendCoins (fun _ => none) emptyWallet 5 2).2.1.transactions =
      emptyWallet.transactions ++ [(emptyWallet.transactionCounter,
        { transaction := emptyTransaction, reservedOutputs := [], txState := .Empty })] ∧
    (SpendCoins (fun _ => none) emptyWallet 5 2).2.1.transactionCounter =
      emptyWallet.transactionCounter + 1) :=
  ⟨by decide, spendCoins_fund_failure (fun _ => none) emptyWallet 5 2 .InsufficientFunds
    (by decide)⟩

/-- Claim C2, amended: when the build succeeds and the consensus collaborator
rejects the submitted transaction, `SpendCoins` surfaces exactly the
collaborator's error and leaves the wallet in the same post-finalize state
as an accepted run: the reservations are *not* released back to unspent —
the transaction was already finalized by `sign(finalize=true)` before
submission, and no rollback happens on the rejection path. -/
theorem spendCoins_rejection (accept : Transaction → Option WalletError) (w : Wallet)
    (amount : Currency) (dest : CoinAddress)
    (hok : (SpendCoins (fun _ => none) w amount dest).2.2 = none) :
    SpendCoins accept w amount dest =
      ((SpendCoins (fun _ => none) w amount dest).1,
       (SpendCoins (fun _ => none) w amount dest).2.1,
       accept (SpendCoins (fun _ => none) w amount dest).1) := by
  simp only [SpendCoins, RegisterTransaction] at hok ⊢
  rcases h2 : FundTransaction
      { w with
          transactionCounter := w.transactionCounter + 1,
          transactions := w.transactions ++
            [(w.transactionCounter,
              { transaction := emptyTransaction, reservedOutputs := [], txState := .Empty })] }
      w.transactionCounter (amount + 10) with ⟨w2, e2⟩
  rcases e2 with _ | e2
  · rcases h3 : AddMinerFee w2 w.transactionCounter 10 with ⟨w3, e3⟩
    rcases e3 with _ | e3
    · rcases h4 : AddOutput w3 w.transactionCounter { value := amount, spendHash := dest } with
        ⟨w4, e4⟩
      rcases e4 with _ | e4
      · rcases h5 : SignTransaction w4 w.transactionCounter true with ⟨t, w5, e5⟩
        rcases e5 with _ | e5
        · simp [h2, h3, h4, h5]
        · simp [h2, h3, h4, h5] at hok
      · simp [h2, h3, h4] at hok
    · simp [h2, h3] at hok
  · simp [h2] at hok

/-- Claim C2, counterexample: a concrete rejected submission.  The error is
surfaced, but the funding output is *not* released: both balances drop from
100 to 0 and nothing is selectable afterwards, so the wallet's
spendable-output set and balance do not equal their pre-call values. -/
theorem spendCoins_rejection_counterexample :
    (SpendCoins (fun _ => some .LedgerRejected) exWallet 40 2).2.2 =
      some .LedgerRejected ∧
    Balance (SpendCoins (fun _ => some .LedgerRejected) exWallet 40 2).2.1 false ≠
      Balance exWallet false ∧
    Balance (SpendCoins (fun _ => some .LedgerRejected) exWallet 40 2).2.1 true ≠
      Balance exWallet true ∧
    unspentOutputsList (SpendCoins (fun _ => some .LedgerRejected) exWallet 40 2).2.1 = [] ∧
    unspentOutputsList exWallet ≠ [] := by
  decide

/-- Witness for the amended C2 at a concrete wallet. -/
theorem spendCoins_rejection_witness :
    (SpendCoins (fun _ => none) exWallet 40 2).2.2 = none ∧
    SpendCoins (fun _ => some .LedgerRejected) exWallet 40 2 =
      ((SpendCoins (fun _ => none) exWallet 40 2).1,
       (SpendCoins (fun _ => none) exWallet 40 2).2.1,
       some .LedgerRejected) :=
  ⟨by decide,
   spendCoins_rejection (fun _ => some .LedgerRejected) exWallet 40 2 (by decide)⟩

theorem fund_success {w : Wallet} {id : Nat} {amount : Currency} {w2 : Wallet}
    {ot : openTransaction} (hl : lookupTransaction w id = some ot)
    (h : FundTransaction w id amount = (w2, none)) :
    amount ≤ outputsTotal (selectPrefix amount (unspentOutputsList w)) ∧
    lookupTransaction w2 id = some
      { transaction :=
          { inputs := ot.transaction.inputs ++ selectedIds w amount
            minerFees := ot.transaction.minerFees
            outputs := ot.transaction.outputs }
        reservedOutputs := ot.reservedOutputs ++ selectedIds w amount
        txState := .Funded } := by
  by_cases hins : outputsTotal (selectPrefix amount (unspentOutputsList w)) < amount
  · simp [FundTransaction, hl, hins] at h
  · refine ⟨Nat.le_of_not_lt hins, ?_⟩
    simp only [FundTransaction, hl, if_neg hins, Prod.mk.injEq] at h
    rw [← h.1]
    simp only [lookupTransaction, markOutputsSpent_transactions]
    exact lookupList_update_self _ hl

theorem addMinerFee_success {w : Wallet} {id : Nat} {fee : Currency} {w3 : Wallet}
    {ot : openTransaction} (hl : lookupTransaction w id = some ot)
    (hst : ot.txState = .Funded) (h : AddMinerFee w id fee = (w3, none)) :
    lookupTransaction w3 id = some
      { transaction :=
          { inputs := ot.transaction.inputs
            minerFees := ot.transaction.minerFees ++ [fee]
            outputs := ot.transaction.outputs }
        reservedOutputs := ot.reservedOutputs
        txState := ot.txState } := by
  simp only [AddMinerFee, hl, hst, Prod.mk.injEq] at h
  rw [← h.1, hst]
  simp only [lookupTransaction]
  exact lookupList_update_self _ hl

theorem addOutput_success {w : Wallet} {id : Nat} {o : Output} {w4 : Wallet}
    {ot : openTransaction} (hl : lookupTransaction w id = some ot)
    (hst : ot.txState = .Funded) (h : AddOutput w id o = (w4, none)) :
    lookupTransaction w4 id = some
      { transaction :=
          { inputs := ot.transaction.inputs
            minerFees := ot.transaction.minerFees
            outputs := ot.transaction.outputs ++ [o] }
        reservedOutputs := ot.reservedOutputs
        txState := ot.txState } := by
  simp only [AddOutput, hl, hst, Prod.mk.injEq] at h
  rw [← h.1, hst]
  simp only [lookupTransaction]
  exact lookupList_update_self _ hl

theorem sign_finalize_result {w : Wallet} {id : Nat} {ot : openTransaction}
    (hl : lookupTransaction w id = some ot) (hst : ot.txState = .Funded) :
    SignTransaction w id true = (ot.transaction,
      { removeOutputs w ot.reservedOutputs with
          transactions := removeList (removeOutputs w ot.reservedOutputs).transactions id },
      none) := by
  simp [SignTransaction, hl, hst]

/-- Claim C5: whenever `SpendCoins(amount, dest)` returns without error, the
returned transaction carries exactly one caller-declared output, of value
`amount` and spend hash `dest`, and exactly one miner fee, of the hardcoded
value 10; its inputs are exactly the greedy selection for the funding
request `amount + 10`, whose total covers that request; and no change
output is ever added — the single declared output stands even when the
selected inputs exceed `amount + 10`. -/
theorem spendCoins_success_shape (accept : Transaction → Option WalletError)
    (w : Wallet) (amount : Currency) (dest : CoinAddress) (t : Transaction) (w' : Wallet)
    (hkeys : ∀ e ∈ w.transactions, e.1 < w.transactionCounter)
    (h : SpendCoins accept w amount dest = (t, w', none)) :
    t.outputs = [{ value := amount, spendHash := dest }] ∧
    t.minerFees = [10] ∧
    t.inputs = selectedIds w (amount + 10) ∧
    amount + 10 ≤ outputsTotal (selectPrefix (amount + 10) (unspentOutputsList w)) := by
  have hnone : lookupList w.transactions w.transactionCounter = none :=
    lookupList_eq_none_of_keys_lt hkeys
  simp only [SpendCoins, RegisterTransaction] at h
  rcases h2 : FundTransaction
      { w with
          transactionCounter := w.transactionCounter + 1,
          transactions := w.transactions ++
            [(w.transactionCounter,
              { transaction := emptyTransaction, reservedOutputs := [], txState := .Empty })] }
      w.transactionCounter (amount + 10) with ⟨w2, e2⟩
  rcases e2 with _ | e2
  swap
  · simp [h2] at h
  have hlook1 : lookupTransaction
      { w with
          transactionCounter := w.transactionCounter + 1,
          transactions := w.transactions ++
            [(w.transactionCounter,
              { transaction := emptyTransaction, reservedOutputs := [], txState := .Empty })] }
      w.transactionCounter =
      some { transaction := emptyTransaction, reservedOutputs := [], txState := .Empty } := by
    show lookupList (w.transactions ++
      [(w.transactionCounter,
        { transaction := emptyTransaction, reservedOutputs := [], txState := .Empty })])
      w.transactionCounter = _
    rw [lookupList_append_single_of_none _ _ hnone]
    simp
  have hfund := fund_success hlook1 h2
  have huns : unspentOutputsList
      { w with
          transactionCounter := w.transactionCounter + 1,
          transactions := w.transactions ++
            [(w.transactionCounter,
              { transaction := emptyTransaction, reservedOutputs := [], txState := .Empty })] } =
      unspentOutputsList w := rfl
  rw [huns] at hfund
  rcases h3 : AddMinerFee w2 w.transactionCounter 10 with ⟨w3, e3⟩
  rcases e3 with _ | e3
  swap
  · simp [h2, h3] at h
  have hmf := addMinerFee_success hfund.2 rfl h3
  rcases h4 : AddOutput w3 w.transactionCounter { value := amount, spendHash := dest } with
    ⟨w4, e4⟩
  rcases e4 with _ | e4
  swap
  · simp [h2, h3, h4] at h
  have hao := addOutput_success hmf rfl h4
  have hsign := sign_finalize_result hao rfl
  simp only [h2, h3, h4, hsign] at h
  simp only [Prod.mk.injEq] at h
  obtain ⟨ht, -⟩ := h
  rw [← ht]
  exact ⟨rfl, rfl, rfl, hfund.1⟩

/-- Witness for C5 at a concrete wallet whose single 100-valued output
strictly exceeds the funding request 40 + 10 (the engine still adds no
change output). -/
theorem spendCoins_success_shape_witness :
    (∀ e ∈ exWallet.transactions, e.1 < exWallet.transactionCounter) ∧
    SpendCoins (fun _ => none) exWallet 40 2 =
      ({ inputs := [7], minerFees := [10], outputs := [{ value := 40, spendHash := 2 }] },
       (SpendCoins (fun _ => none) exWallet 40 2).2.1, none) ∧
    ({ inputs := [7], minerFees := [10],
       outputs := [{ value := 40, spendHash := 2 }] } : Transaction).outputs =
        [{ value := 40, spendHash := 2 }] ∧
    ({ inputs := [7], minerFees := [10],
       outputs := [{ value := 40, spendHash := 2 }] } : Transaction).minerFees = [10] ∧
    ({ inputs := [7], minerFees := [10],
       outputs := [{ value := 40, spendHash := 2 }] } : Transaction).inputs =
      selectedIds exWallet (40 + 10) ∧
    40 + 10 ≤ outputsTotal (selectPrefix (40 + 10) (unspentOutputsList exWallet)) :=
  ⟨by decide, by decide,
   spendCoins_success_shape (fun _ => none) exWallet 40 2
     { inputs := [7], minerFees := [10], outputs := [{ value := 40, spendHash := 2 }] }
     (SpendCoins (fun _ => none) exWallet 40 2).2.1 (by decide) (by decide)⟩

/-! ## Wallet construction (claim C9) -/

/-- Claim C9, counterexample: `Load` restores the persisted wallet-wide counters
(spec §4.6/§6), so a `New` that loads a save file whose persisted
generation counter is 2 leaves `spentCounter = 2`, not 1. -/
theorem new_spentCounter_counterexample :
    (New (some exFile)).spentCounter = 2 ∧ (New (some exFile)).spentCounter ≠ 1 := by
  decide

/-- Claim C9, amended: after `New` returns, `spentCounter` equals 1 when there
was no save file, and otherwise equals the persisted counter (at least 1
for any file a wallet ever saved); per-output generations are not persisted,
so every loaded output carries the default stored generation 0, strictly
below the counter — hence no output is tentatively spent and every output
of a non-time-locked address is eligible for selection. -/
theorem new_wallet_no_tentative_spends (file : Option WalletFile)
    (hwf : ∀ f, file = some f → 1 ≤ f.savedSpentCounter) :
    1 ≤ (New file).spentCounter ∧
    (file = none → (New file).spentCounter = 1) ∧
    (∀ sa ∈ (New file).spendableAddresses, ∀ o ∈ sa.spendableOutputs,
      o.spentCounter = 0 ∧ ¬ tentativelySpent (New file) o) ∧
    (∀ sa ∈ (New file).spendableAddresses,
      addressUnlocked sa (New file).prevHeight = true →
      ∀ o ∈ sa.spendableOutputs, o ∈ unspentOutputsList (New file)) := by
  rcases file with _ | f
  · refine ⟨by decide, fun _ => rfl, ?_, ?_⟩
    · intro sa hsa
      simp [New, Load] at hsa
    · intro sa hsa
      simp [New, Load] at hsa
  · have h1 : 1 ≤ f.savedSpentCounter := hwf f rfl
    have hcount : (New (some f)).spentCounter = f.savedSpentCounter := rfl
    have hzero : ∀ sa ∈ (New (some f)).spendableAddresses, ∀ o ∈ sa.spendableOutputs,
        o.spentCounter = 0 := by
      intro sa hsa o ho
      simp only [New, Load, List.mem_map] at hsa
      rcases hsa with ⟨sa0, hsa0, rfl⟩
      simp only [List.mem_map] at ho
      rcases ho with ⟨p, hp, rfl⟩
      rfl
    refine ⟨?_, ?_, ?_, ?_⟩
    · rw [hcount]
      exact h1
    · intro hc
      cases hc
    · intro sa hsa o ho
      refine ⟨hzero sa hsa o ho, ?_⟩
      unfold tentativelySpent
      rw [hzero sa hsa o ho, hcount]
      omega
    · intro sa hsa hu o ho
      rw [mem_unspentOutputsList]
      refine ⟨⟨sa, hsa, hu, ho⟩, ?_⟩
      rw [hzero sa hsa o ho, hcount]
      omega

/-- Witness for the amended C9 at a concrete save file. -/
theorem new_wallet_no_tentative_spends_witness :
    (∀ f, some exFile = some f → 1 ≤ f.savedSpentCounter) ∧
    (1 ≤ (New (some exFile)).spentCounter ∧
    (some exFile = none → (New (some exFile)).spentCounter = 1) ∧
    (∀ sa ∈ (New (some exFile)).spendableAddresses, ∀ o ∈ sa.spendableOutputs,
      o.spentCounter = 0 ∧ ¬ tentativelySpent (New (some exFile)) o) ∧
    (∀ sa ∈ (New (some exFile)).spendableAddresses,
      addressUnlocked sa (New (some exFile)).prevHeight = true →
      ∀ o ∈ sa.spendableOutputs, o ∈ unspentOutputsList (New (some exFile)))) :=
  ⟨fun f hf => by cases hf; decide,
   new_wallet_no_tentative_spends (some exFile) (fun f hf => by cases hf; decide)⟩

/-! ## The `/consensus` API handler (claim C10) -/

/-- Claim C10: when the consensus set knows the server's current block
(`ChildTarget` returns an existence flag of `true`), the DEBUG-mode panic
branch of `consensusHandlerGET` is unreachable whatever the `build.DEBUG`
setting, and the handler writes exactly one `ConsensusGET` response,
carrying the blockchain height, the current block's id and that block's
child target; the method dispatcher routes every GET (or empty-method)
request to exactly that outcome. -/
theorem consensusHandlerGET_writes_one_response (srv : Server)
    (hex : (srv.cs.childTargetOf srv.currentBlock.ID).2 = true) :
    ∀ debug : Bool,
      consensusHandlerGET debug srv =
        .wrote [{ height := srv.blockchainHeight
                  currentBlock := srv.currentBlock.ID
                  target := (srv.cs.childTargetOf srv.currentBlock.ID).1 }] ∧
      (∀ method, method = "" ∨ method = "GET" →
        consensusHandler debug srv method = consensusHandlerGET debug srv) := by
  intro debug
  constructor
  · simp [consensusHandlerGET, hex]
  · intro method hm
    unfold consensusHandler
    rw [if_pos hm]

/-- Witness for C10 at a concrete server state. -/
theorem consensusHandlerGET_writes_one_response_witness :
    (exServer.cs.childTargetOf exServer.currentBlock.ID).2 = true ∧
    (consensusHandlerGET true exServer =
      .wrote [{ height := exServer.blockchainHeight
                currentBlock := exServer.currentBlock.ID
                target := (exServer.cs.childTargetOf exServer.currentBlock.ID).1 }] ∧
    (∀ method, method = "" ∨ method = "GET" →
      consensusHandler true exServer method = consensusHandlerGET true exServer)) :=
  ⟨rfl, consensusHandlerGET_writes_one_response exServer rfl true⟩

end Sia
